import Mathlib

/-!
# Verification of pdfnaut (COS layer) against its specification

This file shallowly embeds the parts of the `pdfnaut` Python library that the
frozen claims C1 - C10 are about, and proves (or refutes) each claim.

Conventions used throughout:

* Python `bytes` values are modelled as `List Nat`, each element a byte value
  (`< 256`; where a round-trip property needs that bound it appears as an
  explicit hypothesis).
* Python functions that can raise become `Option`/`Except`-valued functions;
  `none`/`.error` models an exception escaping the modelled code.
* Dictionaries with a known key set are modelled as structures or association
  lists, as noted at each definition.

Sources embedded (paths relative to the repository root):
* `src/pdfnaut/cos/objects/base.py`   (`PdfHexString`)              - C9
* `src/pdfnaut/cos/objects/stream.py` (`PdfStream.decode`)          - C1
* `src/pdfnaut/filters.py`            (filter pipeline)             - C1, C5
* `src/pdfnaut/security/standard_handler.py`
  (`compute_object_crypt`)                                          - C4
* `src/pdfnaut/page_list.py`          (`PageList`)                  - C3, C10
* `pdfnaut/parsers/simple.py`         (tokenizer)                   - C6, C7, C8
* `pdfnaut/parsers/pdf.py`            (`parse_stream`,
  `parse_indirect_object`, `decrypt`)                               - C2, C6, C8
-/

namespace Pdfnaut

/-! ## Byte-level helpers shared by several embeddings -/

/-- The COS whitespace set, `b"\x00\t\n\x0c\r "` in
`pdfnaut/parsers/simple.py` and `src/pdfnaut/cos/tokenizer.py`. -/
def WHITESPACE : List Nat := [0x00, 0x09, 0x0a, 0x0c, 0x0d, 0x20]

/-- Python slice `l[start:stop]` (step 1) with full Python index
normalization: negative indices count from the end, out-of-range indices
clamp. -/
def pySlice (l : List Nat) (start stop : Int) : List Nat :=
  let n : Int := l.length
  let lo : Int := if start < 0 then max 0 (n + start) else min start n
  let hi : Int := if stop < 0 then max 0 (n + stop) else min stop n
  ((l.take hi.toNat).drop lo.toNat)

/-- Python `list.insert(i, x)`: a negative index counts from the end and both
directions clamp into range; never fails. -/
def pyInsert {α : Type} (l : List α) (i : Int) (x : α) : List α :=
  let n : Int := l.length
  let j : Int := if i < 0 then max 0 (n + i) else min i n
  l.take j.toNat ++ x :: l.drop j.toNat

/-- Python `list.pop(i)`: `none` models the `IndexError` raised when the
index is out of range. -/
def pyPop {α : Type} (l : List α) (i : Int) : Option (List α) :=
  let n : Int := l.length
  let j : Int := if i < 0 then n + i else i
  if 0 ≤ j ∧ j < n then some (l.take j.toNat ++ l.drop (j.toNat + 1)) else none

/-- Python `l[i] = x` for a list: `none` models the `IndexError` raised when
the index is out of range. -/
def pySetItem {α : Type} (l : List α) (i : Int) (x : α) : Option (List α) :=
  let n : Int := l.length
  let j : Int := if i < 0 then n + i else i
  if 0 ≤ j ∧ j < n then some (l.take j.toNat ++ x :: l.drop (j.toNat + 1)) else none

end Pdfnaut

namespace Pdfnaut

/-! ## C9: `PdfHexString` (src/pdfnaut/cos/objects/base.py)

`binascii.hexlify` / `binascii.unhexlify` are embedded byte for byte:
`hexlify` emits two lowercase hex digits per byte; `unhexlify` fails on an
odd-length input or on any character that is not a hex digit. -/

/-- Lowercase hex digit for a value `< 16` (`binascii.hexlify` uses
lowercase). -/
def hexDigitChar (v : Nat) : Nat :=
  if v < 10 then 48 + v else 87 + v

/-- Value of an ASCII hex digit char; `none` if the character is not a hex
digit (either case accepted, like `binascii.unhexlify`). -/
def hexDigitVal (c : Nat) : Option Nat :=
  if 48 ≤ c ∧ c ≤ 57 then some (c - 48)
  else if 97 ≤ c ∧ c ≤ 102 then some (c - 87)
  else if 65 ≤ c ∧ c ≤ 70 then some (c - 55)
  else none

/-- `binascii.hexlify`: two lowercase hex digits per input byte. -/
def hexlify : List Nat → List Nat
  | [] => []
  | b :: rest => hexDigitChar (b / 16) :: hexDigitChar (b % 16) :: hexlify rest

/-- `binascii.unhexlify`: `none` models the error raised on an odd-length
input or a non-hex character. -/
def unhexlify : List Nat → Option (List Nat)
  | [] => some []
  | [_] => none
  | c1 :: c2 :: rest =>
    match hexDigitVal c1, hexDigitVal c2, unhexlify rest with
    | some h, some l, some bs => some ((h * 16 + l) :: bs)
    | _, _, _ => none

/-- `PdfHexString.__post_init__`: if the stored raw hex text has odd length,
a `0` nibble (ASCII `0x30`) is appended. The constructor keeps the bytes
otherwise unchanged. -/
def mkHexRaw (raw : List Nat) : List Nat :=
  if raw.length % 2 ≠ 0 then raw ++ [48] else raw

/-- `PdfHexString.from_raw`: stores `hexlify(data)` (which already has even
length, so `__post_init__` leaves it unchanged; we still route it through
`mkHexRaw` to mirror the dataclass construction). -/
def PdfHexString.fromRaw (data : List Nat) : List Nat :=
  mkHexRaw (hexlify data)

/-- `PdfHexString.value`: `unhexlify` of the stored raw text; `none` models
the `binascii` error on a non-hex character. -/
def PdfHexString.value (raw : List Nat) : Option (List Nat) :=
  unhexlify raw

/-- Is every byte an ASCII hex digit? (the "hex text" inputs of C9) -/
def allHexDigits (raw : List Nat) : Bool :=
  raw.all (fun c => (hexDigitVal c).isSome)

/-! ## C4: `StandardSecurityHandler.compute_object_crypt`
(src/pdfnaut/security/standard_handler.py)

`hashlib.md5` is an external library; it enters the embedding as a function
parameter `md5 : List Nat → List Nat`. The crypt-method selection
(`_get_crypt_method` / `_get_cfm_method`) is likewise an input, since the
claim quantifies over the crypt method. -/

/-- The `CryptMethod` literal type of standard_handler.py. -/
inductive CryptMethod where
  | identity
  | arc4
  | aesv2
deriving DecidableEq, Repr

/-- Python `n.to_bytes(len, "little")`: little-endian bytes; `none` models
the `OverflowError` raised when `n` does not fit. -/
def toBytesLE (len n : Nat) : Option (List Nat) :=
  if n < 256 ^ len then some (toBytesLEcore len n) else none
where
  toBytesLEcore : Nat → Nat → List Nat
    | 0, _ => []
    | k + 1, m => m % 256 :: toBytesLEcore k (m / 256)

/-- `compute_object_crypt`, key-derivation part (steps a - d): extend the
file encryption key with the low 3 bytes of the object number and low 2
bytes of the generation (both from 4-byte little-endian encodings), append
`b"sAlT"` when the method is AES, then take
`md5(extended)[: key_length + 5][:16]`. -/
def computeObjectCrypt (md5 : List Nat → List Nat) (keyLength : Nat)
    (encryptionKey : List Nat) (objectNumber generation : Nat)
    (method : CryptMethod) : Option (List Nat) :=
  match toBytesLE 4 generation, toBytesLE 4 objectNumber with
  | some gb, some ob =>
    let extKey := encryptionKey ++ ob.take 3 ++ gb.take 2
    let extKey := if method = .aesv2
      then extKey ++ [0x73, 0x41, 0x6C, 0x54] else extKey
    some (((md5 extKey).take (keyLength + 5)).take 16)
  | _, _ => none

/-! ## C2: `PdfParser.decrypt` (pdfnaut/parsers/pdf.py)

`decrypt` dispatches on the results of the security handler's
`authenticate_owner_password` / `authenticate_user_password`, which each
return `(encryption key, success flag)`. The handler is abstracted to those
two functions: the claim quantifies over "P authenticates as owner/user",
which is exactly their success flag. `self.security_handler is None` (an
unencrypted document) is the `none` case. -/

/-- The `PermsAcquired` enum of pdfnaut/parsers/pdf.py. -/
inductive PermsAcquired where
  | noPerms
  | user
  | owner
deriving DecidableEq, Repr

/-- The two authentication entry points of the standard security handler, as
used by `PdfParser.decrypt`. -/
structure SecurityHandlerAuth where
  authenticateOwnerPassword : List Nat → List Nat × Bool
  authenticateUserPassword : List Nat → List Nat × Bool

/-- `PdfParser.decrypt(password)`: owner check first, then user, else none;
`Owner` unconditionally when there is no security handler. -/
def decrypt (handler : Option SecurityHandlerAuth) (password : List Nat) :
    PermsAcquired :=
  match handler with
  | none => .owner
  | some h =>
    if (h.authenticateOwnerPassword password).2 then .owner
    else if (h.authenticateUserPassword password).2 then .user
    else .noPerms

/-! ## The `SimpleObjectParser` cursor (pdfnaut/parsers/simple.py)

State is the byte buffer plus a cursor. `advance(n)` is a no-op once the
cursor is at or past the end (the Python guard `if not self.at_end()`). -/

/-- Parser state: `self.data` and `self.position`. -/
structure SP where
  data : List Nat
  position : Nat
deriving DecidableEq, Repr

/-- `SimpleObjectParser.at_end`. -/
def SP.atEnd (s : SP) : Bool := s.data.length ≤ s.position

/-- `SimpleObjectParser.current`: `data[position:position+1]`, so an empty
list at or past the end. -/
def SP.current (s : SP) : List Nat :=
  match s.data.get? s.position with
  | some b => [b]
  | none => []

/-- `SimpleObjectParser.peek(n)`: `data[position+1:position+1+n]`. -/
def SP.peek (s : SP) (n : Nat) : List Nat :=
  (s.data.drop (s.position + 1)).take n

/-- `SimpleObjectParser.advance(n)` (no-op at the end of the data). -/
def SP.advance (s : SP) (n : Nat) : SP :=
  if s.atEnd then s else { s with position := s.position + n }

/-- First index `≥ start` holding byte `b` (`bytes.find(b, start)`); `none`
models Python's `-1`. -/
def findIdxFrom (data : List Nat) (start b : Nat) : Option Nat :=
  go (data.drop start) start
where
  go : List Nat → Nat → Option Nat
    | [], _ => none
    | x :: xs, i => if x = b then some i else go xs (i + 1)

/-- The three end-of-line markers distinguished by `next_eol`. -/
inductive Eol where
  | cr
  | lf
  | crlf
deriving DecidableEq, Repr

/-- Length in bytes of an end-of-line marker. -/
def Eol.len : Eol → Nat
  | .cr => 1
  | .lf => 1
  | .crlf => 2

/-- `SimpleObjectParser.next_eol`: position and kind of the next end-of-line
marker at or after the cursor; `none` models the `(-1, "")` return. -/
def nextEol (s : SP) : Option (Nat × Eol) :=
  match findIdxFrom s.data s.position 13, findIdxFrom s.data s.position 10 with
  | some c, some n =>
    let first := min c n
    if first = c ∧ c + 1 = n then some (first, .crlf)
    else some (first, if first = c then .cr else .lf)
  | some c, none => some (c, .cr)
  | none, some n => some (n, .lf)
  | none, none => none

/-- `SimpleObjectParser.advance_whitespace`. The Python loop never exits
once the cursor reaches the end (`b"" in WHITESPACE` is true and `advance`
is then a no-op), so that case is modelled as `none`. -/
def skipWhitespaceSP (s : SP) : Option SP :=
  go (s.data.length - s.position + 1) s
where
  go : Nat → SP → Option SP
    | 0, _ => none
    | f + 1, s =>
      match s.data.get? s.position with
      | none => none
      | some b => if b ∈ WHITESPACE then go f (s.advance 1) else some s

/-- `advance_if_next(keyword)`'s match test:
`current + peek(len(keyword) - 1) == keyword`. -/
def matchesKeywordAt (s : SP) (kw : List Nat) : Bool :=
  s.current ++ s.peek (kw.length - 1) = kw

/-! ## C6 / C8: stream extent reading (pdfnaut/parsers/pdf.py)

`parse_stream` checks the cursor against the offset of the next in-use
cross-reference entry whose offset is greater than the current entry's
(`next(next_entry_hold).offset`); that offset is passed in as
`nextEntryOffset` (`none` models both an empty `self.xref` and
`StopIteration`). -/

/-- The conditional end-of-line skip performed twice inside `parse_stream`:
skip the marker found at the cursor unless it is a lone `\r`. -/
def skipStreamEolSP (s : SP) : SP :=
  match nextEol s with
  | some (p, e) => if p = s.position ∧ e ≠ .cr then s.advance e.len else s
  | none => s

/-- State of the parser when the payload read begins: past the 6-byte
`stream` keyword and past the (conditionally skipped) end-of-line marker. -/
def payloadState (s : SP) : SP :=
  skipStreamEolSP (s.advance 6)

/-- Cursor position at which `parse_stream` starts reading payload bytes. -/
def payloadStart (s : SP) : Nat :=
  (payloadState s).position

/-- The payload bytes `parse_stream` reads:
`data[position : position + extent]` at the post-keyword position. -/
def parseStreamContents (s : SP) (extent : Int) : List Nat :=
  let s2 := payloadState s
  pySlice s2.data s2.position (s2.position + extent)

/-- ASCII bytes of `endstream`. -/
def endstreamBytes : List Nat := [101, 110, 100, 115, 116, 114, 101, 97, 109]

/-- `PdfParser.parse_stream(xref_entry, extent)` with the cursor on the
`stream` keyword: skip the keyword and the end-of-line marker (unless a
lone `\r`), read `extent` bytes, skip a trailing marker the same way, check
the next-entry bound, then require `endstream` after whitespace. `none`
models `PdfParseError` (and the whitespace loop's divergence at the end of
data). -/
def parseStream (s : SP) (extent : Int) (nextEntryOffset : Option Nat) :
    Option (List Nat) :=
  let s2 := payloadState s
  let contents := parseStreamContents s extent
  let s3 := s2.advance contents.length
  let s4 := skipStreamEolSP s3
  let beyond := match nextEntryOffset with
    | some o => decide (o ≤ s4.position)
    | none => false
  if beyond then none
  else
    match skipWhitespaceSP s4 with
    | none => none
    | some s5 => if matchesKeywordAt s5 endstreamBytes then some contents else none

/-- Result of the side call `self.resolve_reference(length)` as seen by
`parse_indirect_object`: an integer or some other PDF object. -/
inductive RVal where
  | int (n : Int)
  | other
deriving DecidableEq, Repr

/-- The `Length` entry of a stream dictionary: a direct integer, an indirect
reference, or any other direct object. -/
inductive LengthField where
  | int (n : Int)
  | ref (num gen : Nat)
  | other
deriving DecidableEq, Repr

/-- Lines 308-316 of `parse_indirect_object`: when `Length` is an indirect
reference, save the cursor, resolve the reference via the parser itself
(the side call is the oracle `resolver`, which reads the same immutable
buffer and may leave the cursor anywhere), restore the cursor, and require
an integer result. `none` models `PdfParseError` (or a propagating error
from the side call). -/
def resolveLength (resolver : List Nat → Nat → Option (RVal × Nat)) (s : SP)
    (lf : LengthField) : Option (Int × SP) :=
  match lf with
  | .int n => some (n, s)
  | .ref _ _ =>
    let saved := s.position
    match resolver s.data s.position with
    | none => none
    | some (v, _) =>
      match v with
      | .int n => some (n, { s with position := saved })
      | .other => none
  | .other => none

/-- The stream branch of `parse_indirect_object`: obtain the extent from the
`Length` entry (with the cursor-preserving side trip when it is a
reference), then read the stream at the current cursor. -/
def streamFromLength (resolver : List Nat → Nat → Option (RVal × Nat))
    (s : SP) (lf : LengthField) (nextEntryOffset : Option Nat) :
    Option (List Nat) :=
  match resolveLength resolver s lf with
  | none => none
  | some (n, s') => parseStream s' n nextEntryOffset

/-! ## C7: `SimpleObjectParser.parse_literal_string`
(pdfnaut/parsers/simple.py) -/

/-- The `STRING_ESCAPE` table (§7.3.4.2 Table 3 escapes), keyed by the
two-byte sequence `current + peek()`. -/
def stringEscape (key : List Nat) : Option Nat :=
  match key with
  | [92, 110] => some 10
  | [92, 114] => some 13
  | [92, 116] => some 9
  | [92, 98] => some 8
  | [92, 102] => some 12
  | [92, 40] => some 40
  | [92, 41] => some 41
  | [92, 92] => some 92
  | _ => none

/-- `bytes.isdigit`: nonempty and every byte an ASCII decimal digit. -/
def bytesIsDigit (l : List Nat) : Bool :=
  !l.isEmpty && l.all (fun b => 48 ≤ b && b ≤ 57)

/-- The inner digit scan of the octal escape: consume up to `k` more bytes
while the current byte is an ASCII decimal digit (Python's `isdigit`, so
`8` and `9` are consumed too); returns the scanned digits and the state. -/
def takeDigits : Nat → SP → List Nat × SP
  | 0, s => ([], s)
  | k + 1, s =>
    if !s.atEnd && bytesIsDigit s.current then
      let rec' := takeDigits k (s.advance 1)
      (s.current ++ rec'.1, rec'.2)
    else ([], s)

/-- Python `int(code, 8)`: `none` models the `ValueError` raised on an empty
code or a digit that is not octal (`8` or `9`). -/
def octValue (code : List Nat) : Option Nat :=
  if code.isEmpty then none
  else code.foldl
    (fun acc c => match acc with
      | none => none
      | some a => if 48 ≤ c ∧ c ≤ 55 then some (a * 8 + (c - 48)) else none)
    (some 0)

/-- Python `chr(v).encode()`: UTF-8 encoding of the code point `v` (octal
escapes can reach `\777 = 511`, so the two-byte range matters). -/
def chrUtf8 (v : Nat) : List Nat :=
  if v < 128 then [v]
  else if v < 2048 then [0xC0 + v / 64, 0x80 + v % 64]
  else [0xE0 + v / 4096, 0x80 + v / 64 % 64, 0x80 + v % 64]

/-- One backslash-escape step of `parse_literal_string` for the cases that
fall through to the parenthesis logic (everything except the
`STRING_ESCAPE` table hit, which `continue`s): line continuation, octal
escape, or no recognized escape (state unchanged). Returns the updated
state and accumulated string; `none` models the `ValueError` from
`int(code, 8)`. -/
def literalEscapeStep (s : SP) (acc : List Nat) : Option (SP × List Nat) :=
  let octalCase : Option (SP × List Nat) :=
    if bytesIsDigit (s.peek 1) then
      let s1 := s.advance 1
      let scanned := takeDigits 3 s1
      match octValue scanned.1 with
      | some v => some (scanned.2, acc ++ chrUtf8 v)
      | none => none
    else some (s, acc)
  match nextEol s with
  | some (p, e) =>
    if s.position + 1 = p then some (s.advance (1 + e.len), acc)
    else octalCase
  | none => octalCase

/-- The parenthesis bookkeeping at the bottom of each loop iteration of
`parse_literal_string`: update `paren_depth` from the current byte, append
the current byte unless the depth has reached zero, advance one byte.
Returns the new state, depth, and accumulated string. -/
def parenUpdate (s : SP) (depth : Int) (acc : List Nat) :
    SP × Int × List Nat :=
  let depth' := if s.current = [40] then depth + 1
    else if s.current = [41] then depth - 1 else depth
  let acc' := if depth' ≠ 0 then acc ++ s.current else acc
  (s.advance 1, depth', acc')

/-- The main loop of `parse_literal_string` (fuel-indexed; every iteration
that does not return advances the cursor, so `data.length + 1` fuel always
suffices). `depth` is `paren_depth`, `acc` the accumulated string. -/
def literalLoop : Nat → SP → Int → List Nat → Option (List Nat)
  | 0, _, _, _ => none
  | fuel + 1, s, depth, acc =>
    if s.atEnd || depth < 1 then some acc
    else if s.current = [92] then
      match stringEscape (s.current ++ s.peek 1) with
      | some v => literalLoop fuel (s.advance 2) depth (acc ++ [v])
      | none =>
        match literalEscapeStep s acc with
        | none => none
        | some (s', acc') =>
          let u := parenUpdate s' depth acc'
          literalLoop fuel u.1 u.2.1 u.2.2
    else
      let u := parenUpdate s depth acc
      literalLoop fuel u.1 u.2.1 u.2.2

/-- `parse_literal_string` with the cursor on the opening parenthesis:
advance past it and run the loop. `none` models a `ValueError` escaping
(never fuel: the loop runs at most `data.length - position + 1` rounds). -/
def parseLiteralString (data : List Nat) (pos : Nat) : Option (List Nat) :=
  literalLoop (data.length + 1) (SP.advance ⟨data, pos⟩ 1) 1 []

/-! ## C1 / C5: the filter pipeline (src/pdfnaut/filters.py)

The hex and base-85 codecs the filters delegate to (`base64.b16encode`,
`b16decode`, `a85encode`, `a85decode`) are embedded following the CPython
implementations they name; `zlib` (DEFLATE itself) stays external and
enters as a function parameter. `filters.py` imports `WHITESPACE` from
`cos/tokenizer.py`, which is not present under `src/`; the spec (§4.1)
fixes that set as exactly `\x00 \t \n \f \r space`, which is also the set
in `pdfnaut/parsers/simple.py`, so the shared `WHITESPACE` above is used. -/

/-- Uppercase hex digit for a value `< 16` (`base64.b16encode`). -/
def hexDigitUpper (v : Nat) : Nat :=
  if v < 10 then 48 + v else 55 + v

/-- `base64.b16encode`: two uppercase hex digits per byte. -/
def b16encode : List Nat → List Nat
  | [] => []
  | b :: rest => hexDigitUpper (b / 16) :: hexDigitUpper (b % 16) :: b16encode rest

/-- `base64.b16decode(s, casefold=True)`: after upper-casing this is
pairwise hex decoding accepting both cases, i.e. exactly `unhexlify`;
`none` models the `binascii.Error` on odd length or a non-hex byte. -/
def b16decode (l : List Nat) : Option (List Nat) :=
  unhexlify l

/-- `ASCIIHexFilter.decode`: require the EOD `>` as the final byte, strip
it, drop whitespace, hex-decode. -/
def ahxDecode (contents : List Nat) : Option (List Nat) :=
  match contents.getLast? with
  | some 62 => b16decode ((contents.dropLast).filter (fun ch => ch ∉ WHITESPACE))
  | _ => none

/-- `ASCIIHexFilter.encode`: hex digits followed by the EOD `>`. -/
def ahxEncode (contents : List Nat) : List Nat :=
  b16encode contents ++ [62]

/-- The five base-85 digit characters of a 32-bit group (most significant
first), as produced by CPython's `base64._85encode` tables. -/
def a85chunkChars (w : Nat) : List Nat :=
  [w / 52200625 + 33, w / 614125 % 85 + 33, w / 7225 % 85 + 33,
   w / 85 % 85 + 33, w % 85 + 33]

/-- CPython `base64._85encode(b, _a85chars, _a85chars2, pad=False,
foldnuls=True, foldspaces=False)`: 4-byte big-endian groups become 5
characters, an all-zero group becomes `z`, and a final partial group of
`k` bytes is zero-padded, encoded (an all-zero final chunk is first
expanded back from `z` to `!!!!!`), and truncated to `k + 1` characters. -/
def a85encodeBody : List Nat → List Nat
  | b0 :: b1 :: b2 :: b3 :: rest =>
    (a85word b0 b1 b2 b3) ++ a85encodeBody rest
  | [] => []
  | [b0] => (a85chunkChars (b0 * 16777216)).take 2
  | [b0, b1] => (a85chunkChars (b0 * 16777216 + b1 * 65536)).take 3
  | [b0, b1, b2] => (a85chunkChars (b0 * 16777216 + b1 * 65536 + b2 * 256)).take 4
where
  /-- A full group: `z` when zero (foldnuls), else the 5 digits. -/
  a85word (b0 b1 b2 b3 : Nat) : List Nat :=
    let w := b0 * 16777216 + b1 * 65536 + b2 * 256 + b3
    if w = 0 then [122] else a85chunkChars w

/-- `ASCII85Filter.encode`: `a85encode(contents, adobe=True)[2:]` — the
body without the `<~` opener, with the `~>` EOD kept. -/
def a85RepoEncode (contents : List Nat) : List Nat :=
  a85encodeBody contents ++ [126, 62]

/-- The character loop of CPython `base64.a85decode` (foldspaces off,
`ignorechars` = the COS whitespace set passed by `ASCII85Filter.decode`).
Returns the decoded groups and the leftover `curr` buffer; `none` models
`ValueError` (bad character, `z` inside a group, or group overflow). -/
def a85decodeLoop : List Nat → List Nat → List Nat → Option (List Nat × List Nat)
  | [], curr, out => some (out, curr)
  | x :: rest, curr, out =>
    if 33 ≤ x ∧ x ≤ 117 then
      let curr' := curr ++ [x]
      if curr'.length = 5 then
        let acc := curr'.foldl (fun a c => 85 * a + (c - 33)) 0
        if acc < 4294967296 then
          a85decodeLoop rest []
            (out ++ [acc / 16777216, acc / 65536 % 256, acc / 256 % 256, acc % 256])
        else none
      else a85decodeLoop rest curr' out
    else if x = 122 then
      if curr.isEmpty then a85decodeLoop rest curr (out ++ [0, 0, 0, 0]) else none
    else if x ∈ WHITESPACE then a85decodeLoop rest curr out
    else none

/-- `ASCII85Filter.decode`: `a85decode(contents, ignorechars=WHITESPACE,
adobe=True)` — require the `~>` EOD, strip an optional `<~` opener, run
the loop over the body followed by four `u` pad characters, and drop the
`4 - len(curr)` padding bytes from the result. -/
def a85RepoDecode (contents : List Nat) : Option (List Nat) :=
  if contents.length ≥ 2 ∧ contents.drop (contents.length - 2) = [126, 62] then
    let body := if contents.take 2 = [60, 126]
      then pySlice contents 2 (-2) else pySlice contents 0 (-2)
    match a85decodeLoop (body ++ [117, 117, 117, 117]) [] [] with
    | none => none
    | some (result, curr) =>
      let padding := 4 - curr.length
      if padding ≠ 0 then some (result.take (result.length - padding))
      else some result
  else none

/-- `RunLengthFilter.decode` (fuel-indexed; `contents.length + 1` fuel
always suffices since every round consumes at least the length byte).
`none` models the `IndexError` when a repeat run has no byte to repeat. -/
def rleDecode (fuel : Nat) (contents : List Nat) : Option (List Nat) :=
  match fuel, contents with
  | _, [] => some []
  | 0, _ => none
  | fuel + 1, l :: rest =>
    if l ≤ 127 then
      match rleDecode fuel (rest.drop (l + 1)) with
      | some out => some (rest.take (l + 1) ++ out)
      | none => none
    else if l = 128 then some []
    else
      match rest with
      | [] => none
      | b :: _ =>
        match rleDecode fuel (rest.drop 1) with
        | some out => some (List.replicate (257 - l) b ++ out)
        | none => none

/-- `_predict_paeth`. -/
def predictPaeth (a b c : Int) : Int :=
  let p := a + b - c
  let pa := |p - a|
  let pb := |p - b|
  let pc := |p - c|
  if pa ≤ pb ∧ pa ≤ pc then a
  else if pb ≤ pc then b
  else c

/-- `_process_png_row`: process the bytes of `row` left to right, IN PLACE
— `byte_left` (and on encode therefore the already-processed value) is
read back from the row being updated. `none` models the unsupported-filter
`PdfFilterError` (checked per byte, as in the source) and an out-of-range
read of `previous`. -/
def processPngRow (encode : Bool) (row0 : List Nat) (filterType : Nat)
    (previous : List Nat) (sampleLength : Nat) : Option (List Nat) :=
  go row0.length row0 0
where
  go : Nat → List Nat → Nat → Option (List Nat)
    | 0, row, _ => some row
    | f + 1, row, c =>
      if c < row.length then
        let curByte : Int := row.getD c 0
        let byteLeft : Int :=
          if sampleLength ≤ c then row.getD (c - sampleLength) 0 else 0
        match previous.get? c with
        | none => none
        | some up =>
          let byteUp : Int := up
          let byteUpLeft : Int :=
            if sampleLength ≤ c then previous.getD (c - sampleLength) 0 else 0
          let char? : Option Int :=
            if filterType = 0 then some curByte
            else if filterType = 1 then
              some (if encode then curByte - byteLeft else curByte + byteLeft)
            else if filterType = 2 then
              some (if encode then curByte - byteUp else curByte + byteUp)
            else if filterType = 3 then
              let avg := (byteLeft + byteUp) / 2
              some (if encode then curByte - avg else curByte + avg)
            else if filterType = 4 then
              let paeth := predictPaeth byteLeft byteUp byteUpLeft
              some (if encode then curByte - paeth else curByte + paeth)
            else none
          match char? with
          | none => none
          | some char =>
            let newByte : Nat :=
              if filterType ≠ 0 then (char % 256).toNat else curByte.toNat
            go f (row.set c newByte) (c + 1)
      else some row

/-- `_undo_png_prediction`, row loop (fuel-indexed; each round consumes at
least the filter-type byte, so `filtered.length + 1` fuel suffices):
rows of `1 + rowLength` bytes, the first byte naming the PNG filter;
`previous` starts as a zero row and becomes the decoded row. -/
def undoPngGo (sampleLength rowLength : Nat) :
    Nat → List Nat → List Nat → Option (List Nat)
  | _, [], _ => some []
  | 0, _ :: _, _ => none
  | fuel + 1, ft :: rest, previous =>
    let row := rest.take rowLength
    match processPngRow false row ft previous sampleLength with
    | none => none
    | some dec =>
      match undoPngGo sampleLength rowLength fuel (rest.drop rowLength) dec with
      | none => none
      | some out => some (dec ++ out)

/-- `_undo_png_prediction`: `sample_length = ceil(colors*bpc/8)`,
`row_length = sample_length * cols`, zero initial previous row. -/
def undoPng (filtered : List Nat) (cols colors bpc : Nat) : Option (List Nat) :=
  let sampleLength := (colors * bpc + 7) / 8
  let rowLength := sampleLength * cols
  undoPngGo sampleLength rowLength (filtered.length + 1) filtered
    (List.replicate rowLength 0)

/-- `_apply_png_prediction`, row loop over rows of `rowLength = rl1 + 1`
bytes (the caller rejects a zero row length, where Python's
`range(..., 0)` raises). Each output row is the filter-type tag byte
followed by the processed row; `previous` is the original (unprocessed)
row. Filter type 5 processes with Paeth and tags the row with 4; the
appended row object is the one mutated in place, i.e. the processed row. -/
def applyPngGo (filterType sampleLength rl1 : Nat) :
    Nat → List Nat → List Nat → Option (List Nat)
  | _, [], _ => some []
  | 0, _ :: _, _ => none
  | fuel + 1, x :: xs, previous =>
    let toF := x :: xs
    let row := toF.take (rl1 + 1)
    let step : Option (Nat × List Nat) :=
      if filterType ≤ 4 then
        match processPngRow true row filterType previous sampleLength with
        | none => none
        | some enc => some (filterType, enc)
      else if filterType = 5 then
        match processPngRow true row 4 previous sampleLength with
        | none => none
        | some enc => some (4, enc)
      else none
    match step with
    | none => none
    | some (tag, enc) =>
      match applyPngGo filterType sampleLength rl1 fuel (toF.drop (rl1 + 1)) row with
      | none => none
      | some out => some (tag :: enc ++ out)

/-- `_apply_png_prediction`. `none` when the row length is zero (Python's
`range` raises on a zero step). -/
def applyPng (toFilter : List Nat) (filterType cols colors bpc : Nat) :
    Option (List Nat) :=
  let sampleLength := (colors * bpc + 7) / 8
  match sampleLength * cols with
  | 0 => none
  | rl1 + 1 =>
    applyPngGo filterType sampleLength rl1 (toFilter.length + 1) toFilter
      (List.replicate (rl1 + 1) 0)

/-- `dict.get(key, default)` over the integer-valued filter parameters. -/
def lookupD (ps : List (String × Nat)) (k : String) (d : Nat) : Nat :=
  (ps.lookup k).getD d

/-- `FlateFilter.decode`, with `zlib.decompress` as the external parameter
`zd`: inflate, then by `Predictor` either return as-is (1), fail (2 —
TIFF unsupported — and anything outside 10..15), or undo PNG prediction. -/
def flateDecode (zd : List Nat → Option (List Nat))
    (parms : List (String × Nat)) (contents : List Nat) : Option (List Nat) :=
  match zd contents with
  | none => none
  | some uncomp =>
    let predictor := lookupD parms "Predictor" 1
    if predictor = 1 then some uncomp
    else
      let cols := lookupD parms "Columns" 1
      let colors := lookupD parms "Colors" 1
      let bpc := lookupD parms "BitsPerComponent" 8
      if predictor = 2 then none
      else if 10 ≤ predictor ∧ predictor ≤ 15 then
        undoPng uncomp cols colors bpc
      else none

/-- `FlateFilter.encode`, with `zlib.compress` as the external parameter
`zc`: by `Predictor` either deflate directly (1), fail (2 and anything
outside 10..15), or apply PNG prediction with filter `predictor - 10` and
deflate the result. -/
def flateEncode (zc : List Nat → List Nat)
    (parms : List (String × Nat)) (contents : List Nat) : Option (List Nat) :=
  let predictor := lookupD parms "Predictor" 1
  if predictor = 1 then some (zc contents)
  else
    let cols := lookupD parms "Columns" 1
    let colors := lookupD parms "Colors" 1
    let bpc := lookupD parms "BitsPerComponent" 8
    if predictor = 2 then none
    else if 10 ≤ predictor ∧ predictor ≤ 15 then
      match applyPng contents (predictor - 10) cols colors bpc with
      | none => none
      | some filtered => some (zc filtered)
    else none

/-! ## C1: `PdfStream.decode` (src/pdfnaut/cos/objects/stream.py)

The stream is modelled as constructed directly (the dataclass default
`_sec_handler = {}`); note the source checks `_sec_handler.get("_Handler")`
while the parser stores the key `"Handler"`, so the handler-merge branch is
dead in the source as well. A `DecodeParms` element is split by value kind:
the integer entries (Flate) and the optional `Name` entry (Crypt). -/

/-- The `Filter` entry: a single name or an array of names. -/
inductive FilterVal where
  | one (n : String)
  | arr (ns : List String)

/-- One `DecodeParms` element: `null` or a dictionary. -/
inductive ParmsEntry where
  | null
  | dict (ints : List (String × Nat)) (name : Option String)

/-- The `DecodeParms` entry: a single element or an array of elements. -/
inductive ParmsVal where
  | one (p : ParmsEntry)
  | arr (ps : List ParmsEntry)

/-- The `Filter` / `DecodeParms` entries of a stream dictionary. -/
structure StreamDetails where
  filter : Option FilterVal
  parms : Option ParmsVal

/-- The keys of `SUPPORTED_FILTERS` in src/pdfnaut/filters.py. -/
def SUPPORTED_FILTERS : List String :=
  ["FlateDecode", "ASCII85Decode", "ASCIIHexDecode", "RunLengthDecode", "Crypt"]

/-- The integer parameters of a `DecodeParms` element (after the decode
loop replaces `null`/missing by an empty dictionary). -/
def ParmsEntry.ints' : ParmsEntry → List (String × Nat)
  | .null => []
  | .dict ints _ => ints

/-- `CryptFetchFilter.decode` for a stream with no security handler
attached: the `Name` parameter defaults to `Identity`, and `Identity`
returns the contents unchanged; any other name reads `params["Handler"]`,
which is absent, so a `KeyError` escapes (`none`). -/
def cryptDecode (parms : ParmsEntry) (contents : List Nat) : Option (List Nat) :=
  match parms with
  | .null => some contents
  | .dict _ name =>
    match name with
    | none => some contents
    | some n => if n = "Identity" then some contents else none

/-- Dispatch on `SUPPORTED_FILTERS[name]().decode(contents, params)`. -/
def filterDecode (zd : List Nat → Option (List Nat)) (name : String)
    (contents : List Nat) (parms : ParmsEntry) : Option (List Nat) :=
  match name with
  | "FlateDecode" => flateDecode zd parms.ints' contents
  | "ASCII85Decode" => a85RepoDecode contents
  | "ASCIIHexDecode" => ahxDecode contents
  | "RunLengthDecode" => rleDecode (contents.length + 1) contents
  | "Crypt" => cryptDecode parms contents
  | _ => none

/-- The filter loop of `PdfStream.decode`: `zip(filters, params)` pairs
(truncating like Python's `zip`), each unsupported name raises
(`PdfFilterError`, modelled `none`) — and each round decodes `self.raw`,
NOT the previous round's output (the `output` accumulator is overwritten
from `raw` every iteration). -/
def streamDecodeLoop (zd : List Nat → Option (List Nat)) :
    List (String × ParmsEntry) → List Nat → List Nat → Option (List Nat)
  | [], _, output => some output
  | (f, p) :: rest, raw, _ =>
    if f ∈ SUPPORTED_FILTERS then
      match filterDecode zd f raw p with
      | some out => streamDecodeLoop zd rest raw out
      | none => none
    else none

/-- `PdfStream.decode`: no `Filter` returns the raw bytes; otherwise
normalize `Filter` and `DecodeParms` to arrays (a missing `DecodeParms`
becomes the one-element array `[None]`) and run the loop. -/
def streamDecode (zd : List Nat → Option (List Nat)) (details : StreamDetails)
    (raw : List Nat) : Option (List Nat) :=
  match details.filter with
  | none => some raw
  | some fv =>
    let filters : List String :=
      match fv with
      | .one n => [n]
      | .arr ns => ns
    let parmsList : List ParmsEntry :=
      match details.parms with
      | some (.arr ps) => ps
      | some (.one p) => [p]
      | none => [.null]
    streamDecodeLoop zd (filters.zip parmsList) raw raw

/-! ## C3 / C10: `PageList` (src/pdfnaut/page_list.py)

The page tree is modelled by its `Kids` forests: a `Forest` is a `Kids`
array whose elements are `Page` leaves (`pageCons`) or intermediate
`Pages` nodes carrying their `Count` entry and their own `Kids`
(`treeCons`). The root node's `Count` and `Kids` live in `PLState`
together with `_indexed_pages` (page object numbers).

`_get_tree_with_index` walks the kids in order, decrementing the running
index at each leaf and returning the containing node and kid position once
the index reaches zero; `_insert_page_into_tree` / `_delete_page_in_tree`
then mutate that node's `Kids` and adjust `Count` on it and on every
ancestor via the `Parent` chain. The functional embeddings below fuse the
walk with the rebuild: `insertF`/`deleteF`/`setF` return the rebuilt
forest with `Count` adjusted on exactly the nodes on the path to the
touched leaf (`none` = not found, i.e. the Python helper returns `None`).

Failure modeling: an operation that raises mid-way (`IndexError` out of
`_indexed_pages.pop`/`[index] =`) aborts the Python call; `applyOp`
returns `none` for it and `applyOps` models a sequence of operations that
all complete normally. -/

/-- A `Kids` array: each element is a leaf `Page` or a `Pages` node with
its `Count` entry and nested `Kids`. -/
inductive Forest where
  | nil : Forest
  | pageCons (pid : Nat) (rest : Forest) : Forest
  | treeCons (count : Int) (kids : Forest) (rest : Forest) : Forest
deriving DecidableEq, Repr

/-- Number of leaf `Page` nodes reachable by depth-first traversal. -/
def leafCount : Forest → Nat
  | .nil => 0
  | .pageCons _ rest => 1 + leafCount rest
  | .treeCons _ kids rest => leafCount kids + leafCount rest

/-- The page-tree count invariant below the root: every `Pages` node's
`Count` equals the number of leaf pages in its subtree. -/
def invF : Forest → Bool
  | .nil => true
  | .pageCons _ rest => invF rest
  | .treeCons c kids rest =>
    (c == (leafCount kids : Int)) && invF kids && invF rest

/-- Number of elements of a `Kids` array (leaves and nodes alike). -/
def forestLen : Forest → Nat
  | .nil => 0
  | .pageCons _ rest => 1 + forestLen rest
  | .treeCons _ _ rest => 1 + forestLen rest

/-- Insert a leaf before position `j` of a `Kids` array (`j` already
clamped into range). -/
def forestInsertAt : Forest → Nat → Nat → Forest
  | .nil, _, pid => .pageCons pid .nil
  | f, 0, pid => .pageCons pid f
  | .pageCons p rest, j + 1, pid => .pageCons p (forestInsertAt rest j pid)
  | .treeCons c kids rest, j + 1, pid => .treeCons c kids (forestInsertAt rest j pid)

/-- Python `list.insert(i, leaf)` on a `Kids` array (used by the fallback
`tree["Kids"].insert(tree_idx, ...)` on the root): negative indices count
from the end, everything clamps. -/
def forestInsertPy (f : Forest) (i : Int) (pid : Nat) : Forest :=
  let n : Int := forestLen f
  let j : Int := if i < 0 then max 0 (n + i) else min i n
  forestInsertAt f j.toNat pid

/-- Fused `_get_tree_with_index` + `_insert_page_into_tree`: walk the
forest with the running index (decremented at each leaf, exactly as the
Python walk threads it through intermediate nodes), and at the first leaf
reached with index `≤ 0` insert the new leaf before it, incrementing
`Count` on every node on the path. `none` = the walk found no leaf
(`result is None`). -/
def insertF : Forest → Int → Nat → Option Forest
  | .nil, _, _ => none
  | .pageCons p rest, i, pid =>
    if i ≤ 0 then some (.pageCons pid (.pageCons p rest))
    else
      match insertF rest (i - 1) pid with
      | some rest' => some (.pageCons p rest')
      | none => none
  | .treeCons c kids rest, i, pid =>
    match insertF kids i pid with
    | some kids' => some (.treeCons (c + 1) kids' rest)
    | none =>
      match insertF rest (i - leafCount kids) pid with
      | some rest' => some (.treeCons c kids rest')
      | none => none

/-- Fused `_get_tree_with_index` + `_delete_page_in_tree`: remove the leaf
the walk lands on, decrementing `Count` along the path. -/
def deleteF : Forest → Int → Option Forest
  | .nil, _ => none
  | .pageCons p rest, i =>
    if i ≤ 0 then some rest
    else
      match deleteF rest (i - 1) with
      | some rest' => some (.pageCons p rest')
      | none => none
  | .treeCons c kids rest, i =>
    match deleteF kids i with
    | some kids' => some (.treeCons (c - 1) kids' rest)
    | none =>
      match deleteF rest (i - leafCount kids) with
      | some rest' => some (.treeCons c kids rest')
      | none => none

/-- Fused `_get_tree_with_index` + the `__setitem__` leaf replacement
(`tree["Kids"][tree_idx] = value.indirect_ref`): counts untouched. -/
def setF : Forest → Int → Nat → Option Forest
  | .nil, _, _ => none
  | .pageCons p rest, i, pid =>
    if i ≤ 0 then some (.pageCons pid rest)
    else
      match setF rest (i - 1) pid with
      | some rest' => some (.pageCons p rest')
      | none => none
  | .treeCons c kids rest, i, pid =>
    match setF kids i pid with
    | some kids' => some (.treeCons c kids' rest)
    | none =>
      match setF rest (i - leafCount kids) pid with
      | some rest' => some (.treeCons c kids rest')
      | none => none

/-- The `PageList` state: the root page-tree node's `Count` and `Kids`,
plus `_indexed_pages` as the list of page object numbers. -/
structure PLState where
  rootCount : Int
  rootKids : Forest
  pages : List Nat
deriving DecidableEq, Repr

/-- `PageList._pos_idx_of`: `min(index, len(self))` for a non-negative
index, `len(self) - abs(index)` for a negative one. -/
def posIdx (n : Nat) (i : Int) : Int :=
  if 0 ≤ i then min i (n : Int) else (n : Int) - |i|

/-- `PageList.insert(index, page)`: clamp the index, walk the tree when
there are pages (falling back to the root `Kids` at the clamped index when
the walk finds nothing — which also covers the empty-list case), bump
`Count` on the touched node and every ancestor (the root always included),
and insert into `_indexed_pages`. Never raises. -/
def insertStep (st : PLState) (i : Int) (pid : Nat) : PLState :=
  let idx := posIdx st.pages.length i
  let kids' :=
    if st.pages.isEmpty then forestInsertPy st.rootKids idx pid
    else
      match insertF st.rootKids idx pid with
      | some k => k
      | none => forestInsertPy st.rootKids idx pid
  ⟨st.rootCount + 1, kids', pyInsert st.pages idx pid⟩

/-- The four mutating `PageList` operations of the claims. -/
inductive PLOp where
  | insertOp (i : Int) (pid : Nat)
  | appendOp (pid : Nat)
  | popOp (i : Int)
  | setItemOp (i : Int) (pid : Nat)
deriving DecidableEq, Repr

/-- One `PageList` operation; `none` models an `IndexError` aborting the
call (`append(v)` is literally `insert(len(self._indexed_pages), v)` in
the source; `pop` clamps through `_pos_idx_of`, `__setitem__` does not). -/
def applyOp : PLOp → PLState → Option PLState
  | .insertOp i pid, st => some (insertStep st i pid)
  | .appendOp pid, st => some (insertStep st (st.pages.length : Int) pid)
  | .popOp i, st =>
    let idx := posIdx st.pages.length i
    if st.pages.isEmpty then none
    else
      match deleteF st.rootKids idx with
      | some kids' =>
        match pyPop st.pages idx with
        | some pages' => some ⟨st.rootCount - 1, kids', pages'⟩
        | none => none
      | none => none
  | .setItemOp i pid, st =>
    match setF st.rootKids i pid with
    | some kids' =>
      match pySetItem st.pages i pid with
      | some pages' => some ⟨st.rootCount, kids', pages'⟩
      | none => none
    | none => none

/-- Apply a sequence of operations, all completing normally. -/
def applyOps : List PLOp → PLState → Option PLState
  | [], st => some st
  | op :: ops, st =>
    match applyOp op st with
    | some st' => applyOps ops st'
    | none => none

/-- The full count invariant: the root `Count` equals the DFS leaf count
and every intermediate node's `Count` equals its subtree's leaf count. -/
def invState (st : PLState) : Bool :=
  (st.rootCount == (leafCount st.rootKids : Int)) && invF st.rootKids

/-- Well-formedness tying `_indexed_pages` to the tree: their lengths
agree (the page list indexes the tree's leaves). -/
def syncState (st : PLState) : Bool :=
  st.pages.length == leafCount st.rootKids

end Pdfnaut

namespace Pdfnaut

/-! ### C9 theorems -/

theorem hexDigitVal_hexDigitChar (v : Nat) (h : v < 16) :
    hexDigitVal (hexDigitChar v) = some v := by
  unfold hexDigitChar hexDigitVal
  interval_cases v <;> simp

theorem hexlify_length_even (d : List Nat) : (hexlify d).length % 2 = 0 := by
  induction d with
  | nil => simp [hexlify]
  | cons b rest ih => simp [hexlify]; omega

theorem unhexlify_hexlify (d : List Nat) (hd : ∀ b ∈ d, b < 256) :
    unhexlify (hexlify d) = some d := by
  induction d with
  | nil => simp [hexlify, unhexlify]
  | cons b rest ih =>
    have hb : b < 256 := hd b (by simp)
    have h1 : b / 16 < 16 := by omega
    have h2 : b % 16 < 16 := Nat.mod_lt _ (by norm_num)
    have hrest : unhexlify (hexlify rest) = some rest :=
      ih (fun x hx => hd x (by simp [hx]))
    have hb' : b / 16 * 16 + b % 16 = b := by omega
    simp [hexlify, unhexlify, hexDigitVal_hexDigitChar _ h1,
      hexDigitVal_hexDigitChar _ h2, hrest, hb']

theorem mkHexRaw_even (raw : List Nat) : (mkHexRaw raw).length % 2 = 0 := by
  unfold mkHexRaw
  by_cases h : raw.length % 2 ≠ 0 <;> simp [h] <;> omega

theorem mkHexRaw_odd_pads (raw : List Nat) (h : raw.length % 2 = 1) :
    mkHexRaw raw = raw ++ [48] := by
  simp [mkHexRaw, h]

theorem unhexlify_defined_of_allHex (raw : List Nat)
    (hhex : allHexDigits raw = true) (heven : raw.length % 2 = 0) :
    (unhexlify raw).isSome := by
  induction raw using unhexlify.induct with
  | case1 => simp [unhexlify]
  | case2 c => simp at heven
  | case3 c1 c2 rest d1 d2 bs hbs hd2 hd1 ih =>
    simp [unhexlify, hd1, hd2, hbs]
  | case4 c1 c2 rest hnone ih =>
    simp [allHexDigits] at hhex
    obtain ⟨h1, h2, h3⟩ := hhex
    simp at heven
    obtain ⟨d1, hd1⟩ := Option.isSome_iff_exists.mp h1
    obtain ⟨d2, hd2⟩ := Option.isSome_iff_exists.mp h2
    have hr := ih (by simpa [allHexDigits] using h3) (by omega)
    obtain ⟨bs, hbs⟩ := Option.isSome_iff_exists.mp hr
    exact absurd (hnone d1 d2 bs hd1 hd2 hbs) (by simp)

/-- C9: for every byte string `d`, `PdfHexString.from_raw(d).value == d`; and
for every hex text accepted by the constructor the stored raw form has even
length (an odd-length input gains exactly one trailing `'0'` nibble), so the
`value` property is defined on every constructed instance. -/
theorem claim_C9 :
    (∀ d : List Nat, (∀ b ∈ d, b < 256) →
        PdfHexString.value (PdfHexString.fromRaw d) = some d) ∧
    (∀ raw : List Nat, allHexDigits raw = true →
        (mkHexRaw raw).length % 2 = 0 ∧
        (raw.length % 2 = 1 → mkHexRaw raw = raw ++ [48]) ∧
        (PdfHexString.value (mkHexRaw raw)).isSome) := by
  constructor
  · intro d hd
    have heven : (hexlify d).length % 2 = 0 := hexlify_length_even d
    have : mkHexRaw (hexlify d) = hexlify d := by simp [mkHexRaw, heven]
    simp [PdfHexString.fromRaw, PdfHexString.value, this, unhexlify_hexlify d hd]
  · intro raw hraw
    refine ⟨mkHexRaw_even raw, mkHexRaw_odd_pads raw, ?_⟩
    apply unhexlify_defined_of_allHex _ _ (mkHexRaw_even raw)
    unfold mkHexRaw
    by_cases h : raw.length % 2 ≠ 0 <;>
      simp [h, allHexDigits] at hraw ⊢ <;>
      first
        | exact fun c hc => hraw c hc
        | exact ⟨fun c hc => hraw c hc, by simp [hexDigitVal]⟩

/-- Witness for C9 at concrete inputs. -/
theorem claim_C9_witness :
    PdfHexString.value (PdfHexString.fromRaw [202, 254]) = some [202, 254] ∧
    (PdfHexString.value (mkHexRaw [65, 66, 67])).isSome :=
  ⟨claim_C9.1 [202, 254] (by decide),
   (claim_C9.2 [65, 66, 67] (by decide)).2.2⟩

/-! ### Lemmas about `findIdxFrom` (for the C6 theorems) -/

theorem findIdxFrom_go_spec (b : Nat) :
    ∀ (l : List Nat) (i j : Nat), findIdxFrom.go b l i = some j →
      ∃ k, j = i + k ∧ l.get? k = some b := by
  intro l
  induction l with
  | nil => intro i j h; simp [findIdxFrom.go] at h
  | cons x xs ih =>
    intro i j h
    by_cases hx : x = b
    · simp [findIdxFrom.go, hx] at h
      exact ⟨0, by omega, by simp [hx, h]⟩
    · simp [findIdxFrom.go, hx] at h
      obtain ⟨k, hk, hget⟩ := ih (i + 1) j h
      exact ⟨k + 1, by omega, by simpa using hget⟩

theorem findIdxFrom_spec (data : List Nat) (p b j : Nat)
    (h : findIdxFrom data p b = some j) :
    p ≤ j ∧ data.get? j = some b := by
  obtain ⟨k, hk, hget⟩ := findIdxFrom_go_spec b (data.drop p) p j h
  rw [List.get?_drop] at hget
  exact ⟨by omega, by rwa [hk]⟩

theorem findIdxFrom_self (data : List Nat) (p b : Nat)
    (h : data.get? p = some b) : findIdxFrom data p b = some p := by
  have hlt : p < data.length := List.get?_eq_some.mp h |>.1
  have hdrop : data.drop p = b :: data.drop (p + 1) := by
    rw [List.drop_eq_get_cons hlt]
    congr 1
    have := List.get?_eq_get hlt
    rw [this] at h
    exact Option.some_inj.mp h
  unfold findIdxFrom
  rw [hdrop]
  simp [findIdxFrom.go]

theorem findIdxFrom_step (data : List Nat) (p b b0 : Nat)
    (h : data.get? p = some b0) (hne : b0 ≠ b) :
    findIdxFrom data p b = findIdxFrom data (p + 1) b := by
  have hlt : p < data.length := List.get?_eq_some.mp h |>.1
  have hdrop : data.drop p = b0 :: data.drop (p + 1) := by
    rw [List.drop_eq_get_cons hlt]
    congr 1
    have := List.get?_eq_get hlt
    rw [this] at h
    exact Option.some_inj.mp h
  unfold findIdxFrom
  rw [hdrop]
  simp [findIdxFrom.go, hne]

/-! ### C4 theorems -/

theorem toBytesLE_four (n : Nat) (h : n < 2 ^ 32) :
    toBytesLE 4 n =
      some [n % 256, n / 256 % 256, n / 65536 % 256, n / 16777216 % 256] := by
  have h' : n < 256 ^ 4 := by norm_num at h ⊢; omega
  simp only [toBytesLE, h', if_pos]
  norm_num [toBytesLE.toBytesLEcore, Nat.div_div_eq_div_mul]

/-- C4: the derived per-object crypt key equals MD5 of (file key ++ low 3
bytes of the object number ++ low 2 bytes of the generation, little-endian,
++ `"sAlT"` exactly when the method is AES), truncated to
`min(key_length + 5, 16)` bytes; and the derivation is deterministic in the
file key and object identity. -/
theorem claim_C4 (md5 : List Nat → List Nat) (keyLength : Nat)
    (fileKey : List Nat) (num gen : Nat) (method : CryptMethod)
    (hnum : num < 2 ^ 32) (hgen : gen < 2 ^ 32) :
    computeObjectCrypt md5 keyLength fileKey num gen method =
      some ((md5 (fileKey ++
          [num % 256, num / 256 % 256, num / 65536 % 256] ++
          [gen % 256, gen / 256 % 256] ++
          (if method = .aesv2 then [0x73, 0x41, 0x6C, 0x54] else []))).take
        (min (keyLength + 5) 16)) ∧
    (∀ k1 k2 : List Nat,
      computeObjectCrypt md5 keyLength fileKey num gen method = some k1 →
      computeObjectCrypt md5 keyLength fileKey num gen method = some k2 →
      k1 = k2) := by
  constructor
  · simp only [computeObjectCrypt, toBytesLE_four num hnum, toBytesLE_four gen hgen]
    by_cases hm : method = .aesv2 <;>
      simp [hm, List.take_take, List.take, Nat.min_comm, List.append_assoc]
  · intro k1 k2 h1 h2
    rw [h1] at h2
    exact Option.some_inj.mp h2

/-- Witness for C4 at a concrete input (a stand-in hash function, since
`hashlib.md5` is external). -/
theorem claim_C4_witness :
    computeObjectCrypt (fun l => l ++ [0]) 5 [1, 2, 3, 4, 5] 7 1 .aesv2 =
      some (((fun (l : List Nat) => l ++ [0])
          ([1, 2, 3, 4, 5] ++ [7, 0, 0] ++ [1, 0] ++
            [0x73, 0x41, 0x6C, 0x54])).take (min 10 16)) :=
  (claim_C4 (fun l => l ++ [0]) 5 [1, 2, 3, 4, 5] 7 1 .aesv2
    (by norm_num) (by norm_num)).1

/-! ### C6 theorems -/

theorem SP.advance_data (s : SP) (n : Nat) : (s.advance n).data = s.data := by
  unfold SP.advance; split <;> rfl

theorem skipStreamEolSP_data (s : SP) : (skipStreamEolSP s).data = s.data := by
  unfold skipStreamEolSP
  split
  · split
    · apply SP.advance_data
    · rfl
  · rfl

theorem payloadState_data (s : SP) : (payloadState s).data = s.data := by
  unfold payloadState
  rw [skipStreamEolSP_data, SP.advance_data]

theorem nextEol_lf (data : List Nat) (q : Nat) (h : data.get? q = some 10) :
    nextEol ⟨data, q⟩ = some (q, .lf) := by
  have h10 : findIdxFrom data q 10 = some q := findIdxFrom_self data q 10 h
  unfold nextEol
  cases h13 : findIdxFrom data q 13 with
  | none => simp [h10, h13]
  | some c =>
    obtain ⟨hcq, hcb⟩ := findIdxFrom_spec data q 13 c h13
    have hcne : c ≠ q := fun he => by rw [he, h] at hcb; simp at hcb
    have hmin : min c q = q := by omega
    simp only [h13, h10, hmin]
    have h1 : ¬(q = c ∧ c + 1 = q) := by omega
    have h2 : ¬(q = c) := fun he => hcne he.symm
    simp [h1, h2]

theorem nextEol_crlf (data : List Nat) (q : Nat)
    (h13 : data.get? q = some 13) (h10 : data.get? (q + 1) = some 10) :
    nextEol ⟨data, q⟩ = some (q, .crlf) := by
  have hc : findIdxFrom data q 13 = some q := findIdxFrom_self data q 13 h13
  have hn : findIdxFrom data q 10 = some (q + 1) := by
    rw [findIdxFrom_step data q 10 13 h13 (by norm_num)]
    exact findIdxFrom_self data (q + 1) 10 h10
  unfold nextEol
  simp [hc, hn]

theorem nextEol_lone_cr (data : List Nat) (q : Nat)
    (h13 : data.get? q = some 13) (h10 : data.get? (q + 1) ≠ some 10) :
    nextEol ⟨data, q⟩ = some (q, .cr) := by
  have hc : findIdxFrom data q 13 = some q := findIdxFrom_self data q 13 h13
  unfold nextEol
  cases hn : findIdxFrom data q 10 with
  | none => simp [hc, hn]
  | some n =>
    obtain ⟨hnq, hnb⟩ := findIdxFrom_spec data q 10 n hn
    have hne1 : n ≠ q := fun he => by rw [he, h13] at hnb; simp at hnb
    have hne2 : n ≠ q + 1 := fun he => h10 (he ▸ hnb)
    have hmin : min q n = q := by omega
    simp only [hc, hn, hmin]
    have h1 : ¬(q = q ∧ q + 1 = n) := by omega
    have h2 : ¬(q + 1 = n) := by omega
    simp [h1, h2]

theorem SP.advance_eq (s : SP) (n : Nat) (h : s.position < s.data.length) :
    s.advance n = ⟨s.data, s.position + n⟩ := by
  have hb : ¬(s.atEnd = true) := by simp [SP.atEnd]; omega
  unfold SP.advance
  rw [if_neg hb]

theorem skipStreamEolSP_of_eol (s : SP) (e : Eol)
    (he : nextEol s = some (s.position, e)) (hne : e ≠ .cr)
    (hlt : s.position < s.data.length) :
    skipStreamEolSP s = ⟨s.data, s.position + e.len⟩ := by
  unfold skipStreamEolSP
  simp only [he]
  rw [if_pos (by first | exact ⟨rfl, hne⟩ | exact ⟨trivial, hne⟩)]
  exact SP.advance_eq s e.len hlt

theorem skipStreamEolSP_of_cr (s : SP)
    (he : nextEol s = some (s.position, .cr)) : skipStreamEolSP s = s := by
  unfold skipStreamEolSP
  simp only [he]
  rw [if_neg (by simp)]

/-- C6 (amended): after the `stream` keyword the parser skips exactly one
end-of-line marker when it is `\n` or `\r\n`, but a lone `\r` is NOT
skipped and the Length payload bytes are read starting at the `\r` byte
itself; the payload read always starts at `payloadStart`. -/
theorem claim_C6 (s : SP) :
    (s.data.get? (s.position + 6) = some 10 →
      payloadStart s = s.position + 7) ∧
    (s.data.get? (s.position + 6) = some 13 →
      s.data.get? (s.position + 7) = some 10 →
      payloadStart s = s.position + 8) ∧
    (s.data.get? (s.position + 6) = some 13 →
      s.data.get? (s.position + 7) ≠ some 10 →
      payloadStart s = s.position + 6) ∧
    (∀ extent : Int, parseStreamContents s extent =
      pySlice s.data ((payloadStart s : Int)) (payloadStart s + extent)) := by
  obtain ⟨data, p⟩ := s
  refine ⟨?_, ?_, ?_, ?_⟩
  case _ =>
    intro h
    have hlen : p + 6 < data.length := (List.get?_eq_some.mp h).1
    have hadv : SP.advance ⟨data, p⟩ 6 = ⟨data, p + 6⟩ :=
      SP.advance_eq ⟨data, p⟩ 6 (by simp; omega)
    unfold payloadStart payloadState
    rw [hadv, skipStreamEolSP_of_eol ⟨data, p + 6⟩ .lf
      (nextEol_lf data (p + 6) h) (by decide) (by simpa using hlen)]
    simp [Eol.len]
  case _ =>
    intro h13 h10
    have hlen : p + 6 < data.length := (List.get?_eq_some.mp h13).1
    have hadv : SP.advance ⟨data, p⟩ 6 = ⟨data, p + 6⟩ :=
      SP.advance_eq ⟨data, p⟩ 6 (by simp; omega)
    unfold payloadStart payloadState
    rw [hadv, skipStreamEolSP_of_eol ⟨data, p + 6⟩ .crlf
      (nextEol_crlf data (p + 6) h13 (by simpa [Nat.add_assoc] using h10))
      (by decide) (by simpa using hlen)]
    simp [Eol.len]
  case _ =>
    intro h13 h10
    have hlen : p + 6 < data.length := (List.get?_eq_some.mp h13).1
    have hadv : SP.advance ⟨data, p⟩ 6 = ⟨data, p + 6⟩ :=
      SP.advance_eq ⟨data, p⟩ 6 (by simp; omega)
    unfold payloadStart payloadState
    rw [hadv, skipStreamEolSP_of_cr ⟨data, p + 6⟩
      (nextEol_lone_cr data (p + 6) h13 (by simpa [Nat.add_assoc] using h10))]
  case _ =>
    intro extent
    simp only [parseStreamContents, payloadStart]
    rw [payloadState_data]

/-- Witness for C6 across all three hypothesis cases
(`stream\nAB…`, `stream\r\nAB…`, `stream\rA…`). -/
theorem claim_C6_witness :
    payloadStart ⟨[115, 116, 114, 101, 97, 109, 10, 65, 66], 0⟩ = 7 ∧
    payloadStart ⟨[115, 116, 114, 101, 97, 109, 13, 10, 65, 66], 0⟩ = 8 ∧
    payloadStart ⟨[115, 116, 114, 101, 97, 109, 13, 65, 66], 0⟩ = 6 :=
  ⟨(claim_C6 ⟨[115, 116, 114, 101, 97, 109, 10, 65, 66], 0⟩).1 (by decide),
   (claim_C6 ⟨[115, 116, 114, 101, 97, 109, 13, 10, 65, 66], 0⟩).2.1 (by decide) (by decide),
   (claim_C6 ⟨[115, 116, 114, 101, 97, 109, 13, 65, 66], 0⟩).2.2.1 (by decide) (by decide)⟩

/-- Counterexample to C6 as stated: for the buffer `stream\rA` + `endstream`
with `Length = 2`, the parse succeeds and the payload is `b"\rA"` — the
lone carriage return after the keyword is NOT skipped, where the claim
requires the payload to be read from the byte after it (`b"Ae"`). -/
theorem claim_C6_counterexample :
    parseStream ⟨[115, 116, 114, 101, 97, 109, 13, 65] ++ endstreamBytes, 0⟩
        2 none = some [13, 65] ∧
    parseStream ⟨[115, 116, 114, 101, 97, 109, 13, 65] ++ endstreamBytes, 0⟩
        2 none ≠ some [65, 101] := by
  constructor
  · rfl
  · decide

/-! ### C7 theorems -/

/-- C7 evaluated at failing inputs: in `(\200)` the escape `\200` produces
the two UTF-8 bytes `[194, 128]` rather than the single byte `128` the
claim requires; in `(\39)` the digit scan consumes the non-octal digit `9`
(instead of stopping before it) and the conversion then raises, where the
claim requires the byte `3` followed by the literal `9`. The final conjunct
shows the in-range behavior `(\101B)` → `AB` for contrast. -/
theorem claim_C7 :
    parseLiteralString [40, 92, 50, 48, 48, 41] 0 = some [194, 128] ∧
    parseLiteralString [40, 92, 50, 48, 48, 41] 0 ≠ some [128] ∧
    parseLiteralString [40, 92, 51, 57, 41] 0 = none ∧
    parseLiteralString [40, 92, 51, 57, 41] 0 ≠ some [3, 57] ∧
    parseLiteralString [40, 92, 49, 48, 49, 66, 41] 0 = some [65, 66] := by
  refine ⟨by rfl, by decide, by rfl, by decide, by rfl⟩

/-! ### C8 theorems -/

/-- C8: when a stream's `Length` is an indirect reference, the side
resolution leaves the parser cursor unchanged — the position after the side
trip equals the position before it — and the subsequent payload read starts
exactly where it would have had `Length` been the direct integer. -/
theorem claim_C8 (resolver : List Nat → Nat → Option (RVal × Nat)) (s : SP)
    (num gen : Nat) (n : Int) (newPos : Nat) (next : Option Nat)
    (hres : resolver s.data s.position = some (.int n, newPos)) :
    resolveLength resolver s (.ref num gen) = some (n, s) ∧
    streamFromLength resolver s (.ref num gen) next =
      streamFromLength resolver s (.int n) next := by
  have h1 : resolveLength resolver s (.ref num gen) = some (n, s) := by
    unfold resolveLength
    rw [hres]
  refine ⟨h1, ?_⟩
  unfold streamFromLength
  rw [h1]
  rfl


/-- Witness for C8: a resolver that parks the cursor at position 999 and
returns length 2; the payload is read as if `Length` had been direct. -/
theorem claim_C8_witness :
    resolveLength (fun _ _ => some (.int 2, 999))
        ⟨[115, 116, 114, 101, 97, 109, 10, 65, 66] ++ endstreamBytes, 0⟩
        (.ref 5 0) =
      some (2, ⟨[115, 116, 114, 101, 97, 109, 10, 65, 66] ++ endstreamBytes, 0⟩) ∧
    streamFromLength (fun _ _ => some (.int 2, 999))
        ⟨[115, 116, 114, 101, 97, 109, 10, 65, 66] ++ endstreamBytes, 0⟩
        (.ref 5 0) none =
      streamFromLength (fun _ _ => some (.int 2, 999))
        ⟨[115, 116, 114, 101, 97, 109, 10, 65, 66] ++ endstreamBytes, 0⟩
        (.int 2) none :=
  claim_C8 (fun _ _ => some (.int 2, 999))
    ⟨[115, 116, 114, 101, 97, 109, 10, 65, 66] ++ endstreamBytes, 0⟩
    5 0 2 999 none rfl

/-! ### C1 theorems -/

/-- C1 evaluated at a failing input: a stream whose raw bytes are the
ASCIIHex encoding applied twice to `b"PDFs"`, with
`Filter = [ASCIIHexDecode, ASCIIHexDecode]` and aligned null parameters.
Chaining the filter over the running buffer yields `b"PDFs"` (second
conjunct), but `PdfStream.decode` feeds `self.raw` to every filter and
returns the once-decoded bytes `b"50444673>"` instead (first conjunct).
The last two conjuncts check the claim's error half, which the code does
satisfy: an unknown filter name fails instead of returning bytes, and a
stream with no `Filter` entry returns its raw bytes. -/
theorem claim_C1 :
    streamDecode (fun _ => none)
        ⟨some (.arr ["ASCIIHexDecode", "ASCIIHexDecode"]),
         some (.arr [.null, .null])⟩
        [51, 53, 51, 48, 51, 52, 51, 52, 51, 52, 51, 54, 51, 55, 51, 51, 51, 69, 62] =
      some [53, 48, 52, 52, 52, 54, 55, 51, 62] ∧
    (ahxDecode
        [51, 53, 51, 48, 51, 52, 51, 52, 51, 52, 51, 54, 51, 55, 51, 51, 51, 69, 62]).bind
        ahxDecode = some [80, 68, 70, 115] ∧
    streamDecode (fun _ => none)
        ⟨some (.arr ["ASCIIHexDecode", "ASCIIHexDecode"]),
         some (.arr [.null, .null])⟩
        [51, 53, 51, 48, 51, 52, 51, 52, 51, 52, 51, 54, 51, 55, 51, 51, 51, 69, 62] ≠
      some [80, 68, 70, 115] ∧
    streamDecode (fun _ => none) ⟨some (.one "Bogus"), none⟩ [1, 2, 3] = none ∧
    streamDecode (fun _ => none) ⟨none, none⟩ [9, 9] = some [9, 9] := by
  refine ⟨by rfl, by rfl, by decide, by rfl, by rfl⟩

/-! ### C5 theorems -/

/-- C5 evaluated at a failing input: FlateDecode with the documented
parameters `Predictor = 11` (PNG Sub), `Columns = 3` does not round-trip.
With the external `zlib` pair instantiated to the identity (any pair with
`decompress ∘ compress = id` factors out of the composition), encoding
`[1, 2, 3]` produces the filtered row `[1, 1, 1, 2]` — the encoder reads
`byte_left` back from the row it is mutating — and decoding that yields
`[1, 2, 4] ≠ [1, 2, 3]`. -/
theorem claim_C5 :
    flateEncode (fun l => l) [("Predictor", 11), ("Columns", 3)] [1, 2, 3] =
      some [1, 1, 1, 2] ∧
    flateDecode (fun l => some l) [("Predictor", 11), ("Columns", 3)]
        [1, 1, 1, 2] = some [1, 2, 4] ∧
    ([1, 2, 4] : List Nat) ≠ [1, 2, 3] := by
  refine ⟨by rfl, by rfl, by decide⟩

/-! ### C2 theorems -/

/-- C2: `decrypt(P)` returns `Owner` when `P` authenticates as the owner
password, `User` when it authenticates as the user password and not as
owner, `None` when neither; a document without a security handler returns
`Owner` for every password. -/
theorem claim_C2 (h : SecurityHandlerAuth) (password : List Nat) :
    decrypt none password = .owner ∧
    ((h.authenticateOwnerPassword password).2 = true →
      decrypt (some h) password = .owner) ∧
    ((h.authenticateOwnerPassword password).2 = false →
      (h.authenticateUserPassword password).2 = true →
      decrypt (some h) password = .user) ∧
    ((h.authenticateOwnerPassword password).2 = false →
      (h.authenticateUserPassword password).2 = false →
      decrypt (some h) password = .noPerms) := by
  refine ⟨rfl, ?_, ?_, ?_⟩ <;> intros <;> simp_all [decrypt]

/-- Witness for C2 with a concrete handler: the owner password is `[1]`, the
user password is `[2]`. -/
theorem claim_C2_witness :
    decrypt none [9] = .owner ∧
    decrypt (some ⟨fun p => ([7], p = [1]), fun p => ([8], p = [2])⟩) [1] = .owner ∧
    decrypt (some ⟨fun p => ([7], p = [1]), fun p => ([8], p = [2])⟩) [2] = .user ∧
    decrypt (some ⟨fun p => ([7], p = [1]), fun p => ([8], p = [2])⟩) [3] = .noPerms := by
  refine ⟨(claim_C2 ⟨fun p => ([7], decide (p = [1])), fun p => ([8], decide (p = [2]))⟩ [9]).1,
    (claim_C2 _ [1]).2.1 (by decide),
    (claim_C2 _ [2]).2.2.1 (by decide) (by decide),
    (claim_C2 _ [3]).2.2.2 (by decide) (by decide)⟩

/-! ### C3 / C10 lemmas: list-surgery lengths -/

theorem pyInsert_length {α : Type} (l : List α) (i : Int) (x : α) :
    (pyInsert l i x).length = l.length + 1 := by
  unfold pyInsert
  split <;> simp <;> omega

theorem pyPop_length {α : Type} (l : List α) (i : Int) (l' : List α)
    (h : pyPop l i = some l') : l'.length + 1 = l.length := by
  simp only [pyPop] at h
  split at h <;> split at h
  · rw [Option.some_inj] at h; subst h; simp; omega
  · exact Option.noConfusion h
  · rw [Option.some_inj] at h; subst h; simp; omega
  · exact Option.noConfusion h

theorem pySetItem_length {α : Type} (l : List α) (i : Int) (x : α)
    (l' : List α) (h : pySetItem l i x = some l') : l'.length = l.length := by
  simp only [pySetItem] at h
  split at h <;> split at h
  · rw [Option.some_inj] at h; subst h; simp; omega
  · exact Option.noConfusion h
  · rw [Option.some_inj] at h; subst h; simp; omega
  · exact Option.noConfusion h

/-! ### C3 / C10 lemmas: forest surgery preserves the count invariant -/

theorem forestInsertAt_spec (f : Forest) :
    ∀ (j pid : Nat),
      leafCount (forestInsertAt f j pid) = leafCount f + 1 ∧
      (invF f = true → invF (forestInsertAt f j pid) = true) := by
  induction f with
  | nil =>
    intro j pid
    cases j <;> exact ⟨by simp [forestInsertAt, leafCount], by intro hf; simp [forestInsertAt, invF]⟩
  | pageCons p rest ih =>
    intro j pid
    cases j with
    | zero =>
      refine ⟨by simp [forestInsertAt, leafCount]; omega, ?_⟩
      intro hf
      simpa only [forestInsertAt, invF] using hf
    | succ j' =>
      obtain ⟨hlc, hinv⟩ := ih j' pid
      refine ⟨by simp only [forestInsertAt, leafCount, hlc]; omega, ?_⟩
      intro hf
      simp only [forestInsertAt, invF] at hf ⊢
      exact hinv hf
  | treeCons c kids rest ihk ihr =>
    intro j pid
    cases j with
    | zero =>
      refine ⟨by simp [forestInsertAt, leafCount]; omega, ?_⟩
      intro hf
      simpa only [forestInsertAt, invF] using hf
    | succ j' =>
      obtain ⟨hlc, hinv⟩ := ihr j' pid
      refine ⟨by simp only [forestInsertAt, leafCount, hlc]; omega, ?_⟩
      intro hf
      simp only [forestInsertAt, invF, Bool.and_eq_true, beq_iff_eq] at hf ⊢
      exact ⟨hf.1, hinv hf.2⟩

theorem insertF_spec (f : Forest) :
    ∀ (i : Int) (pid : Nat) (f' : Forest), insertF f i pid = some f' →
      leafCount f' = leafCount f + 1 ∧
      (invF f = true → invF f' = true) := by
  induction f with
  | nil => intro i pid f' h; simp [insertF] at h
  | pageCons p rest ih =>
    intro i pid f' h
    by_cases hi : i ≤ 0
    · simp only [insertF, if_pos hi, Option.some_inj] at h
      subst h
      refine ⟨by simp [leafCount]; omega, ?_⟩
      intro hf
      simpa only [invF] using hf
    · simp only [insertF, if_neg hi] at h
      cases hrec : insertF rest (i - 1) pid with
      | none => rw [hrec] at h; exact Option.noConfusion h
      | some rest' =>
        rw [hrec] at h
        rw [Option.some_inj] at h
        subst h
        obtain ⟨hlc, hinv⟩ := ih (i - 1) pid rest' hrec
        refine ⟨by simp only [leafCount, hlc]; omega, ?_⟩
        intro hf
        simp only [invF] at hf ⊢
        exact hinv hf
  | treeCons c kids rest ihk ihr =>
    intro i pid f' h
    simp only [insertF] at h
    cases hk : insertF kids i pid with
    | some kids' =>
      rw [hk] at h
      rw [Option.some_inj] at h
      subst h
      obtain ⟨hlc, hinv⟩ := ihk i pid kids' hk
      refine ⟨by simp only [leafCount, hlc]; omega, ?_⟩
      intro hf
      simp only [invF, Bool.and_eq_true, beq_iff_eq] at hf ⊢
      obtain ⟨⟨hc, hik⟩, hir⟩ := hf
      refine ⟨⟨?_, hinv hik⟩, hir⟩
      rw [hlc]
      push_cast
      omega
    | none =>
      rw [hk] at h
      cases hr : insertF rest (i - leafCount kids) pid with
      | none => rw [hr] at h; exact Option.noConfusion h
      | some rest' =>
        rw [hr] at h
        rw [Option.some_inj] at h
        subst h
        obtain ⟨hlc, hinv⟩ := ihr (i - leafCount kids) pid rest' hr
        refine ⟨by simp only [leafCount, hlc]; omega, ?_⟩
        intro hf
        simp only [invF, Bool.and_eq_true, beq_iff_eq] at hf ⊢
        exact ⟨hf.1, hinv hf.2⟩

theorem deleteF_spec (f : Forest) :
    ∀ (i : Int) (f' : Forest), deleteF f i = some f' →
      leafCount f' + 1 = leafCount f ∧
      (invF f = true → invF f' = true) := by
  induction f with
  | nil => intro i f' h; simp [deleteF] at h
  | pageCons p rest ih =>
    intro i f' h
    by_cases hi : i ≤ 0
    · simp only [deleteF, if_pos hi, Option.some_inj] at h
      subst h
      refine ⟨by simp [leafCount]; omega, ?_⟩
      intro hf
      simpa only [invF] using hf
    · simp only [deleteF, if_neg hi] at h
      cases hrec : deleteF rest (i - 1) with
      | none => rw [hrec] at h; exact Option.noConfusion h
      | some rest' =>
        rw [hrec] at h
        rw [Option.some_inj] at h
        subst h
        obtain ⟨hlc, hinv⟩ := ih (i - 1) rest' hrec
        refine ⟨by simp only [leafCount]; omega, ?_⟩
        intro hf
        simp only [invF] at hf ⊢
        exact hinv hf
  | treeCons c kids rest ihk ihr =>
    intro i f' h
    simp only [deleteF] at h
    cases hk : deleteF kids i with
    | some kids' =>
      rw [hk] at h
      rw [Option.some_inj] at h
      subst h
      obtain ⟨hlc, hinv⟩ := ihk i kids' hk
      refine ⟨by simp only [leafCount]; omega, ?_⟩
      intro hf
      simp only [invF, Bool.and_eq_true, beq_iff_eq] at hf ⊢
      obtain ⟨⟨hc, hik⟩, hir⟩ := hf
      refine ⟨⟨?_, hinv hik⟩, hir⟩
      omega
    | none =>
      rw [hk] at h
      cases hr : deleteF rest (i - leafCount kids) with
      | none => rw [hr] at h; exact Option.noConfusion h
      | some rest' =>
        rw [hr] at h
        rw [Option.some_inj] at h
        subst h
        obtain ⟨hlc, hinv⟩ := ihr (i - leafCount kids) rest' hr
        refine ⟨by simp only [leafCount]; omega, ?_⟩
        intro hf
        simp only [invF, Bool.and_eq_true, beq_iff_eq] at hf ⊢
        exact ⟨hf.1, hinv hf.2⟩

theorem setF_spec (f : Forest) :
    ∀ (i : Int) (pid : Nat) (f' : Forest), setF f i pid = some f' →
      leafCount f' = leafCount f ∧
      (invF f = true → invF f' = true) := by
  induction f with
  | nil => intro i pid f' h; simp [setF] at h
  | pageCons p rest ih =>
    intro i pid f' h
    by_cases hi : i ≤ 0
    · simp only [setF, if_pos hi, Option.some_inj] at h
      subst h
      refine ⟨by simp [leafCount], ?_⟩
      intro hf
      simpa only [invF] using hf
    · simp only [setF, if_neg hi] at h
      cases hrec : setF rest (i - 1) pid with
      | none => rw [hrec] at h; exact Option.noConfusion h
      | some rest' =>
        rw [hrec] at h
        rw [Option.some_inj] at h
        subst h
        obtain ⟨hlc, hinv⟩ := ih (i - 1) pid rest' hrec
        refine ⟨by simp only [leafCount, hlc], ?_⟩
        intro hf
        simp only [invF] at hf ⊢
        exact hinv hf
  | treeCons c kids rest ihk ihr =>
    intro i pid f' h
    simp only [setF] at h
    cases hk : setF kids i pid with
    | some kids' =>
      rw [hk] at h
      rw [Option.some_inj] at h
      subst h
      obtain ⟨hlc, hinv⟩ := ihk i pid kids' hk
      refine ⟨by simp only [leafCount, hlc], ?_⟩
      intro hf
      simp only [invF, Bool.and_eq_true, beq_iff_eq] at hf ⊢
      obtain ⟨⟨hc, hik⟩, hir⟩ := hf
      refine ⟨⟨?_, hinv hik⟩, hir⟩
      rw [hlc]
      exact hc
    | none =>
      rw [hk] at h
      cases hr : setF rest (i - leafCount kids) pid with
      | none => rw [hr] at h; exact Option.noConfusion h
      | some rest' =>
        rw [hr] at h
        rw [Option.some_inj] at h
        subst h
        obtain ⟨hlc, hinv⟩ := ihr (i - leafCount kids) pid rest' hr
        refine ⟨by simp only [leafCount, hlc], ?_⟩
        intro hf
        simp only [invF, Bool.and_eq_true, beq_iff_eq] at hf ⊢
        exact ⟨hf.1, hinv hf.2⟩

theorem forestInsertPy_spec (f : Forest) (i : Int) (pid : Nat) :
    leafCount (forestInsertPy f i pid) = leafCount f + 1 ∧
    (invF f = true → invF (forestInsertPy f i pid) = true) := by
  unfold forestInsertPy
  exact forestInsertAt_spec f _ pid

/-! ### C3 / C10: per-operation invariant preservation -/

theorem insertStep_preserves (st : PLState) (i : Int) (pid : Nat)
    (hinv : invState st = true) (hsync : syncState st = true) :
    invState (insertStep st i pid) = true ∧
    syncState (insertStep st i pid) = true := by
  have hkids : leafCount (insertStep st i pid).rootKids =
      leafCount st.rootKids + 1 ∧
      (invF st.rootKids = true → invF (insertStep st i pid).rootKids = true) := by
    unfold insertStep
    dsimp only
    by_cases hp : st.pages.isEmpty
    · simp only [hp, if_true]
      exact forestInsertPy_spec _ _ _
    · simp only [hp, if_false]
      cases hins : insertF st.rootKids (posIdx st.pages.length i) pid with
      | some k =>
        simp only [hins]
        exact insertF_spec _ _ _ _ hins
      | none =>
        simp only [hins]
        exact forestInsertPy_spec _ _ _
  have hpages : (insertStep st i pid).pages.length = st.pages.length + 1 := by
    unfold insertStep
    exact pyInsert_length _ _ _
  have hcount : (insertStep st i pid).rootCount = st.rootCount + 1 := rfl
  simp only [invState, syncState, Bool.and_eq_true, beq_iff_eq] at hinv hsync ⊢
  obtain ⟨hc, hk⟩ := hinv
  refine ⟨⟨?_, hkids.2 hk⟩, ?_⟩
  · rw [hcount, hkids.1, hc]
    push_cast
    ring
  · rw [hpages, hkids.1]
    omega

theorem applyOp_preserves (op : PLOp) (st st' : PLState)
    (h : applyOp op st = some st')
    (hinv : invState st = true) (hsync : syncState st = true) :
    invState st' = true ∧ syncState st' = true := by
  cases op with
  | insertOp i pid =>
    simp only [applyOp, Option.some_inj] at h
    subst h
    exact insertStep_preserves st i pid hinv hsync
  | appendOp pid =>
    simp only [applyOp, Option.some_inj] at h
    subst h
    exact insertStep_preserves st _ pid hinv hsync
  | popOp i =>
    simp only [applyOp] at h
    split at h
    · exact Option.noConfusion h
    · cases hd : deleteF st.rootKids (posIdx st.pages.length i) with
      | none => rw [hd] at h; exact Option.noConfusion h
      | some kids' =>
        rw [hd] at h
        cases hp : pyPop st.pages (posIdx st.pages.length i) with
        | none => rw [hp] at h; exact Option.noConfusion h
        | some pages' =>
          rw [hp] at h
          rw [Option.some_inj] at h
          subst h
          obtain ⟨hlc, hif⟩ := deleteF_spec _ _ _ hd
          have hpl := pyPop_length _ _ _ hp
          simp only [invState, syncState, Bool.and_eq_true, beq_iff_eq]
            at hinv hsync ⊢
          obtain ⟨hc, hk⟩ := hinv
          exact ⟨⟨by omega, hif hk⟩, by omega⟩
  | setItemOp i pid =>
    simp only [applyOp] at h
    cases hs : setF st.rootKids i pid with
    | none => rw [hs] at h; exact Option.noConfusion h
    | some kids' =>
      rw [hs] at h
      cases hp : pySetItem st.pages i pid with
      | none => rw [hp] at h; exact Option.noConfusion h
      | some pages' =>
        rw [hp] at h
        rw [Option.some_inj] at h
        subst h
        obtain ⟨hlc, hif⟩ := setF_spec _ _ _ _ hs
        have hpl := pySetItem_length _ _ _ _ hp
        simp only [invState, syncState, Bool.and_eq_true, beq_iff_eq]
          at hinv hsync ⊢
        obtain ⟨hc, hk⟩ := hinv
        exact ⟨⟨by omega, hif hk⟩, by omega⟩

theorem applyOps_preserves (ops : List PLOp) :
    ∀ (st st' : PLState), applyOps ops st = some st' →
      invState st = true → syncState st = true →
      invState st' = true ∧ syncState st' = true := by
  induction ops with
  | nil =>
    intro st st' happ hinv hsync
    simp only [applyOps, Option.some_inj] at happ
    subst happ
    exact ⟨hinv, hsync⟩
  | cons op ops ih =>
    intro st st' happ hinv hsync
    simp only [applyOps] at happ
    cases hop : applyOp op st with
    | none => rw [hop] at happ; exact Option.noConfusion happ
    | some st1 =>
      rw [hop] at happ
      obtain ⟨h1, h2⟩ := applyOp_preserves op st st1 hop hinv hsync
      exact ih st1 st' happ h1 h2

/-- C3: over a well-formed page tree (`Count` correct at the root and at
every intermediate node, and the indexed page list matching the tree's
leaf count), after any finite sequence of `insert`/`pop`/`append`/
`__setitem__` operations that complete normally, the root node's `Count`
equals the number of leaf pages reachable by depth-first traversal of the
`Kids` forests, and every intermediate node's `Count` equals the leaf
count of its subtree. -/
theorem claim_C3 (ops : List PLOp) (st st' : PLState)
    (hinv : invState st = true) (hsync : syncState st = true)
    (happ : applyOps ops st = some st') :
    st'.rootCount = (leafCount st'.rootKids : Int) ∧
    invF st'.rootKids = true := by
  have main := (applyOps_preserves ops st st' happ hinv hsync).1
  simp only [invState, Bool.and_eq_true, beq_iff_eq] at main
  exact main

/-- Witness for C3 on a nested 2-page tree driven through one insert, one
append, one pop and one item assignment. -/
theorem claim_C3_witness :
    (⟨3, .treeCons 2 (.pageCons 7 (.pageCons 2 .nil)) (.pageCons 9 .nil),
        [7, 2, 9]⟩ : PLState).rootCount =
      (leafCount (⟨3, .treeCons 2 (.pageCons 7 (.pageCons 2 .nil))
        (.pageCons 9 .nil), [7, 2, 9]⟩ : PLState).rootKids : Int) ∧
    invF (⟨3, .treeCons 2 (.pageCons 7 (.pageCons 2 .nil))
      (.pageCons 9 .nil), [7, 2, 9]⟩ : PLState).rootKids = true :=
  claim_C3 [.insertOp 1 7, .appendOp 8, .popOp 0, .setItemOp 2 9]
    ⟨2, .treeCons 2 (.pageCons 1 (.pageCons 2 .nil)) .nil, [1, 2]⟩
    ⟨3, .treeCons 2 (.pageCons 7 (.pageCons 2 .nil)) (.pageCons 9 .nil),
      [7, 2, 9]⟩
    (by decide) (by decide) (by decide)

/-! ### C10 theorems -/

/-- C10: `insert` with a non-negative index at or beyond the page count is
observably `append` (same resulting state); `insert(-k)` with
`1 ≤ k ≤ n` inserts before position `n - k` of the page list; and no
out-of-range non-negative index makes `insert` fail. -/
theorem claim_C10 (st : PLState) (i : Int) (k pid : Nat) :
    ((st.pages.length : Int) ≤ i →
      applyOp (.insertOp i pid) st = applyOp (.appendOp pid) st) ∧
    (1 ≤ k → k ≤ st.pages.length →
      (insertStep st (-(k : Int)) pid).pages =
        st.pages.take (st.pages.length - k) ++
          pid :: st.pages.drop (st.pages.length - k)) ∧
    (0 ≤ i → (applyOp (.insertOp i pid) st).isSome = true) := by
  refine ⟨?_, ?_, ?_⟩
  · intro hni
    have h0 : (0 : Int) ≤ i := le_trans (Int.ofNat_nonneg _) hni
    have h1 : posIdx st.pages.length i = (st.pages.length : Int) := by
      unfold posIdx
      rw [if_pos h0, min_eq_right hni]
    have h2 : posIdx st.pages.length (st.pages.length : Int) =
        (st.pages.length : Int) := by
      unfold posIdx
      rw [if_pos (Int.ofNat_nonneg _), min_self]
    simp only [applyOp, insertStep, h1, h2]
  · intro hk1 hkn
    have hneg : ¬((0 : Int) ≤ -(k : Int)) := by omega
    have h1 : posIdx st.pages.length (-(k : Int)) =
        (st.pages.length : Int) - k := by
      unfold posIdx
      rw [if_neg hneg]
      simp
    have hpy : pyInsert st.pages ((st.pages.length : Int) - k) pid =
        st.pages.take ((st.pages.length : Int) - k).toNat ++
          pid :: st.pages.drop ((st.pages.length : Int) - k).toNat := by
      simp only [pyInsert]
      rw [if_neg (by omega), min_eq_left (by omega)]
    have ht : ((st.pages.length : Int) - k).toNat = st.pages.length - k := by
      omega
    simp only [insertStep, h1]
    rw [hpy, ht]
  · intro _
    simp [applyOp]

/-- Witness for C10 on a concrete 2-page state. -/
theorem claim_C10_witness :
    (applyOp (.insertOp 5 7)
        ⟨2, .treeCons 2 (.pageCons 1 (.pageCons 2 .nil)) .nil, [1, 2]⟩ =
      applyOp (.appendOp 7)
        ⟨2, .treeCons 2 (.pageCons 1 (.pageCons 2 .nil)) .nil, [1, 2]⟩) ∧
    (insertStep ⟨2, .treeCons 2 (.pageCons 1 (.pageCons 2 .nil)) .nil,
        [1, 2]⟩ (-(1 : Int)) 7).pages =
      [1, 2].take 1 ++ 7 :: [1, 2].drop 1 ∧
    (applyOp (.insertOp 5 7)
        ⟨2, .treeCons 2 (.pageCons 1 (.pageCons 2 .nil)) .nil,
          [1, 2]⟩).isSome = true :=
  ⟨(claim_C10 ⟨2, .treeCons 2 (.pageCons 1 (.pageCons 2 .nil)) .nil, [1, 2]⟩
      5 1 7).1 (by decide),
   (claim_C10 ⟨2, .treeCons 2 (.pageCons 1 (.pageCons 2 .nil)) .nil, [1, 2]⟩
      5 1 7).2.1 (by decide) (by decide),
   (claim_C10 ⟨2, .treeCons 2 (.pageCons 1 (.pageCons 2 .nil)) .nil, [1, 2]⟩
      5 1 7).2.2 (by decide)⟩

end Pdfnaut
